import Mathlib

/-!
Verification development for the Solidity style checker
(`solidity-style-checker/checker.js` and its configuration
`solidity-style-checker/build-config.js`).

The checker is embedded shallowly: file contents are `List Char`,
the JavaScript regexes are modelled by deterministic scanners that
reproduce the observable matching behaviour of the concrete patterns
used in the source, and the process-wide mutable accumulators
(`issues`, `stats`) are threaded explicitly as a `CheckerState`.
Each pass is given denotationally as the list of findings it emits
(`structureDelta`, `importsDelta`, `namingDelta`, `layoutDelta`);
the stateful entry points (`addIssue`, `checkFileStructure`, ...,
`checkFile`, `runChecker`) fold those emissions through `addIssue`
exactly as the source does.
-/

/-- Whitespace as matched by the JavaScript regex class `\s`
(ASCII range: space, tab, newline, carriage return, vertical tab,
form feed). -/
def isWsChar (c : Char) : Bool :=
  c == ' ' || c == '\t' || c == '\n' || c == '\r' || c == '\x0b' || c == '\x0c'

/-- First character of an identifier, regex class `[A-Za-z_]`. -/
def isIdentStartChar (c : Char) : Bool :=
  c.isAlpha || c == '_'

/-- Identifier character, regex class `[A-Za-z0-9_]`. -/
def isIdentChar (c : Char) : Bool :=
  c.isAlpha || c.isDigit || c == '_'

/-- Word character for `\b` word boundaries, regex class `\w`. -/
def isWordChar (c : Char) : Bool :=
  isIdentChar c

/-- Quote character, regex class `["\x27]`. -/
def isQuoteChar (c : Char) : Bool :=
  c == '"' || c == '\''

/-- Drop trailing whitespace. -/
def dropTrailingWs (cs : List Char) : List Char :=
  (cs.reverse.dropWhile isWsChar).reverse

/-- JavaScript `String.prototype.trim` (ASCII fragment). -/
def jsTrim (cs : List Char) : List Char :=
  dropTrailingWs (cs.dropWhile isWsChar)

/-- Split on a separator character, keeping empty pieces, as
JavaScript `split` does. -/
def splitOnCharAux (sep : Char) (acc : List Char) : List Char → List (List Char)
  | [] => [acc.reverse]
  | c :: t =>
    if c == sep then acc.reverse :: splitOnCharAux sep [] t
    else splitOnCharAux sep (c :: acc) t

/-- JavaScript `content.split(sep)` for a one-character separator. -/
def splitOnChar (sep : Char) (cs : List Char) : List (List Char) :=
  splitOnCharAux sep [] cs

/-- JavaScript `content.split('\n')`. -/
def splitLines (cs : List Char) : List (List Char) :=
  splitOnChar '\n' cs

/-- Substring test, JavaScript `String.prototype.includes` /
an unanchored regex literal. -/
def containsSub (sub : List Char) : List Char → Bool
  | [] => sub.isPrefixOf ([] : List Char)
  | c :: t => sub.isPrefixOf (c :: t) || containsSub sub t

/-- Strict lexicographic comparison on UTF code points, the order
JavaScript `<` uses on strings (identical on ASCII). -/
def charListLt : List Char → List Char → Bool
  | [], [] => false
  | [], _ :: _ => true
  | _ :: _, [] => false
  | a :: as, b :: bs =>
    if a.val < b.val then true
    else if b.val < a.val then false
    else charListLt as bs

/-- Consume an exact literal prefix, returning the rest. -/
def stripLit (lit : List Char) (cs : List Char) : Option (List Char) :=
  if lit.isPrefixOf cs then some (cs.drop lit.length) else none

/-- Consume `\s+` (at least one whitespace character, maximal run). -/
def wsPlus (cs : List Char) : Option (List Char) :=
  match cs with
  | c :: t => if isWsChar c then some (t.dropWhile isWsChar) else none
  | [] => none

/-- Line number of the match offset `idx`:
`content.substring(0, idx).split('\n').length` in the source. -/
def lineOf (content : List Char) (idx : Nat) : Nat :=
  (content.take idx).countP (fun c => c == '\n') + 1

/-- One reported rule violation, the object pushed by `addIssue`. -/
structure Finding where
  file : String
  line : Nat
  rule : String
  message : String
  severity : String
deriving DecidableEq

/-- The process-wide `stats` object. -/
structure Stats where
  files : Nat
  errors : Nat
  warnings : Nat
  info : Nat
  passed : Nat
deriving DecidableEq

/-- The mutable run state: `stats` plus the `issues` array. -/
structure CheckerState where
  stats : Stats
  issues : List Finding
deriving DecidableEq

/-- The state at process start. -/
def initState : CheckerState :=
  ⟨⟨0, 0, 0, 0, 0⟩, []⟩

/-- Severity-conditional counter updates inside `addIssue`. -/
def bumpStats (s : Stats) (severity : String) : Stats :=
  if severity == "error" then { s with errors := s.errors + 1 }
  else if severity == "warning" then { s with warnings := s.warnings + 1 }
  else if severity == "info" then { s with info := s.info + 1 }
  else s

/-- `addIssue(file, line, rule, message, severity)`: push the finding
and update the severity counters. -/
def addIssue (st : CheckerState) (f : Finding) : CheckerState :=
  ⟨bumpStats st.stats f.severity, st.issues ++ [f]⟩

/-- A sequence of `addIssue` calls. -/
def emitList (st : CheckerState) (fs : List Finding) : CheckerState :=
  fs.foldl addIssue st

/-- `RULES.structure` in `build-config.js` (fields read by the checker). -/
structure StructureRules where
  spdxLicense : Bool
  spdxAtTop : Bool
  pragmaAfterLicense : Bool
deriving DecidableEq

/-- `RULES.imports` (fields read by the checker). -/
structure ImportRules where
  namedOnly : Bool
  alphabetical : Bool
deriving DecidableEq

/-- `RULES.naming` (fields read by the checker).  String-valued rules
are `Option String`, `none` standing for an absent (falsy) entry. -/
structure NamingRules where
  contracts : Option String
  functions : Option String
  constants : Option String
  events : Option String
  eventsPastTense : Bool
  functionArguments : Option String
  privateInternalFunctions : Option String
deriving DecidableEq

/-- `RULES.layout` (fields read by the checker).  The numeric rules
use `0` for a falsy (disabled) value, as JavaScript does. -/
structure LayoutRules where
  indentation : Nat
  noTabs : Bool
  maxLineLength : Nat
  noTrailingWhitespace : Bool
deriving DecidableEq

/-- The whole configuration module: `RULES` (category by category,
`none` = category absent) plus the `RULE_SEVERITY` map. -/
structure Config where
  struct : Option StructureRules
  imports : Option ImportRules
  naming : Option NamingRules
  layout : Option LayoutRules
  ruleSeverityMap : List (String × String)
deriving DecidableEq

/-- JavaScript truthiness of an optional string rule value. -/
def truthyOpt : Option String → Bool
  | none => false
  | some s => s != ""

/-- `RULE_SEVERITY[rule] || dflt`: the severity override when present
and truthy, the default otherwise. -/
def sevLookup (map : List (String × String)) (rule dflt : String) : String :=
  match map.lookup rule with
  | some s => if s == "" then dflt else s
  | none => dflt

/-- The literal `SPDX-License-Identifier:` marker. -/
def spdxMarker : List Char :=
  "SPDX-License-Identifier:".data

/-- Findings emitted by `checkFileStructure` for one file. -/
def structureDelta (o : Option StructureRules) (map : List (String × String))
    (path : String) (content : List Char) (lines : List (List Char)) : List Finding :=
  match o with
  | none => []
  | some rules =>
    (if rules.spdxLicense then
      (if containsSub spdxMarker content then
        (if rules.spdxAtTop then
          match lines with
          | first :: _ =>
            if containsSub spdxMarker (jsTrim first) then []
            else [⟨path, 1, "structure.spdxAtTop",
                   "SPDX license should be on first line", "warning"⟩]
          | [] => []
        else [])
      else
        [⟨path, 1, "structure.spdxLicense", "Missing SPDX license identifier",
          sevLookup map "structure.spdxLicense" "error"⟩])
    else [])
    ++
    (if rules.pragmaAfterLicense then
      match lines.findIdx? (fun l => "pragma solidity".data.isPrefixOf (jsTrim l)),
            lines.findIdx? (fun l => containsSub spdxMarker l) with
      | some pragmaIdx, some spdxIdx =>
        if pragmaIdx < spdxIdx then
          [⟨path, pragmaIdx + 1, "structure.pragmaAfterLicense",
            "Pragma should come after SPDX license", "warning"⟩]
        else []
      | some _, none => []
      | none, _ => []
    else [])

/-- Stateful form of the structure pass. -/
def checkFileStructure (o : Option StructureRules) (map : List (String × String))
    (path : String) (content : List Char) (lines : List (List Char))
    (st : CheckerState) : CheckerState :=
  emitList st (structureDelta o map path content lines)

/-- The collected import lines: each line whose trimmed form starts
with `import ` (trimmed text, 1-based line number). -/
def importLines (lines : List (List Char)) : List (List Char × Nat) :=
  lines.enum.filterMap fun p =>
    let t := jsTrim p.2
    if "import ".data.isPrefixOf t then some (t, p.1 + 1) else none

/-- Anchored test of the regex
`^import\s+\x7b[^\x7d]+\x7d\s+from\s+["\x27][^"\x27]+["\x27];?$`
(`namedImportPattern` in the source).  The pattern is deterministic:
every greedy repetition excludes the character that must follow it. -/
def matchNamedImport (cs : List Char) : Bool :=
  match stripLit "import".data cs with
  | none => false
  | some r0 =>
  match wsPlus r0 with
  | none => false
  | some r1 =>
  match r1 with
  | '{' :: r2 =>
    let inner := r2.takeWhile (fun c => c != '}')
    if inner.isEmpty then false
    else
      match r2.drop inner.length with
      | '}' :: r3 =>
        match wsPlus r3 with
        | none => false
        | some r4 =>
        match stripLit "from".data r4 with
        | none => false
        | some r5 =>
        match wsPlus r5 with
        | none => false
        | some r6 =>
        match r6 with
        | q :: r7 =>
          if isQuoteChar q then
            let pathPart := r7.takeWhile (fun c => !(isQuoteChar c))
            if pathPart.isEmpty then false
            else
              match r7.drop pathPart.length with
              | q2 :: r8 => isQuoteChar q2 && (r8.isEmpty || r8 == [';'])
              | [] => false
          else false
        | [] => false
      | _ => false
  | _ => false

/-- Attempt to match `from\s+["\x27]([^"\x27]+)["\x27]` at the head of
the text, returning the captured path. -/
def tryFromAt (cs : List Char) : Option (List Char) :=
  match stripLit "from".data cs with
  | none => none
  | some r0 =>
  match wsPlus r0 with
  | none => none
  | some r1 =>
  match r1 with
  | q :: r2 =>
    if isQuoteChar q then
      let p := r2.takeWhile (fun c => !(isQuoteChar c))
      if p.isEmpty then none
      else
        match r2.drop p.length with
        | c2 :: _ => if isQuoteChar c2 then some p else none
        | [] => none
    else none
  | [] => none

/-- `extractImportPath`: first (leftmost) match of the unanchored
`from`-clause regex, or `null` when there is none. -/
def extractImportPath : List Char → Option (List Char)
  | [] => none
  | c :: t =>
    match tryFromAt (c :: t) with
    | some p => some p
    | none => extractImportPath t

/-- Findings emitted by `checkImports` for one file. -/
def importsDelta (o : Option ImportRules) (path : String)
    (lines : List (List Char)) : List Finding :=
  match o with
  | none => []
  | some rules =>
    let imps := importLines lines
    imps.enum.flatMap fun p =>
      (if rules.namedOnly && !(matchNamedImport p.2.1) then
        [⟨path, p.2.2, "imports.namedOnly",
          "Use named imports: import {Contract} from \"./file.sol\"", "warning"⟩]
      else [])
      ++
      (if rules.alphabetical && p.1 != 0 then
        match imps.get? (p.1 - 1) with
        | some prev =>
          match extractImportPath p.2.1, extractImportPath prev.1 with
          | some currentFrom, some previousFrom =>
            if charListLt currentFrom previousFrom then
              [⟨path, p.2.2, "imports.alphabetical",
                "Imports should be alphabetically ordered", "warning"⟩]
            else []
          | some _, none => []
          | none, _ => []
        | none => []
      else [])

/-- Stateful form of the import pass. -/
def checkImports (o : Option ImportRules) (path : String)
    (lines : List (List Char)) (st : CheckerState) : CheckerState :=
  emitList st (importsDelta o path lines)

/-- `isCapWords`: regex `^[A-Z][a-zA-Z0-9]*$`. -/
def isCapWords : List Char → Bool
  | [] => false
  | c :: t => c.isUpper && t.all (fun d => d.isAlpha || d.isDigit)

/-- `isMixedCase`: regex `^[a-z][a-zA-Z0-9]*$`. -/
def isMixedCase : List Char → Bool
  | [] => false
  | c :: t => c.isLower && t.all (fun d => d.isAlpha || d.isDigit)

/-- `isUpperCase`: regex `^[A-Z][A-Z0-9_]*$`. -/
def isUpperCase : List Char → Bool
  | [] => false
  | c :: t => c.isUpper && t.all (fun d => d.isUpper || d.isDigit || d == '_')

/-- `isUnderscoreMixedCase`: regex `^_[a-z][a-zA-Z0-9]*$`. -/
def isUnderscoreMixedCase : List Char → Bool
  | '_' :: c :: t => c.isLower && t.all (fun d => d.isAlpha || d.isDigit)
  | _ => false

/-- `isPastTense`: ends with one of the fixed suffixes. -/
def isPastTense (eventName : List Char) : Bool :=
  ["ed", "Updated", "Created", "Deleted", "Added", "Removed", "Set", "Changed"].any
    fun suffix => suffix.data.isSuffixOf eventName

/-- Attempt of the contract-declaration pattern
`^(\s*)contract\s+([A-Za-z_][A-Za-z0-9_]*)` at a line-start position:
whitespace run, literal `contract`, at least one whitespace, an
identifier.  Returns the captured name and the rest of the text. -/
def tryContractAt (cs : List Char) : Option (List Char × List Char) :=
  match stripLit "contract".data (cs.dropWhile isWsChar) with
  | none => none
  | some r1 =>
  match wsPlus r1 with
  | none => none
  | some r2 =>
  match r2 with
  | c :: t =>
    if isIdentStartChar c then
      some (c :: t.takeWhile isIdentChar, t.dropWhile isIdentChar)
    else none
  | [] => none

/-- Global scan of the multiline contract pattern: attempt the match
at every position where `^` holds (offset 0 or just after a newline),
resuming after the end of each successful match.  The fuel argument
bounds the recursion; it is initialised with the text length, which
every step decreases by at least one character. -/
def scanContractsAux : Nat → Bool → Nat → List Char → List (Nat × List Char)
  | 0, _, _, _ => []
  | _ + 1, _, _, [] => []
  | fuel + 1, bol, i, c :: t =>
    if bol then
      match tryContractAt (c :: t) with
      | some (nm, rest) =>
        (i, nm) :: scanContractsAux fuel false (i + ((c :: t).length - rest.length)) rest
      | none => scanContractsAux fuel (c == '\n') (i + 1) t
    else scanContractsAux fuel (c == '\n') (i + 1) t

/-- All matches of `contractPattern` over the file text, with their
match offsets. -/
def scanContracts (content : List Char) : List (Nat × List Char) :=
  scanContractsAux content.length true 0 content

/-- One match of the function-declaration pattern: match offset,
captured name, captured raw argument list, captured modifier and
visibility tail. -/
structure FnMatch where
  idx : Nat
  name : List Char
  args : List Char
  tail : List Char
deriving DecidableEq

/-- Attempt of the function pattern
`function\s+([A-Za-z_][A-Za-z0-9_]*)\s*\(\s*([^)]*)\s*\)\s*([^\x7b]*?)\s*\x7b`
at the head of the text.  The lazy group together with its greedy
whitespace neighbours resolves to: everything after the closing
parenthesis and the following whitespace run, up to the first opening
brace, with trailing whitespace stripped. -/
def tryFunctionAt (cs : List Char) : Option (List Char × List Char × List Char × List Char) :=
  match stripLit "function".data cs with
  | none => none
  | some r0 =>
  match wsPlus r0 with
  | none => none
  | some r1 =>
  match r1 with
  | c :: t =>
    if isIdentStartChar c then
      let nm := c :: t.takeWhile isIdentChar
      let r2 := (t.dropWhile isIdentChar).dropWhile isWsChar
      match r2 with
      | '(' :: r3 =>
        let r4 := r3.dropWhile isWsChar
        let args := r4.takeWhile (fun d => d != ')')
        match r4.drop args.length with
        | ')' :: r5 =>
          let r6 := r5.dropWhile isWsChar
          let pre := r6.takeWhile (fun d => d != '{')
          match r6.drop pre.length with
          | '{' :: r7 => some (nm, args, dropTrailingWs pre, r7)
          | _ => none
        | _ => none
      | _ => none
    else none
  | [] => none

/-- Global scan of the function pattern: attempt at every offset,
resume after the consumed opening brace on success. -/
def scanFunctionsAux : Nat → Nat → List Char → List FnMatch
  | 0, _, _ => []
  | _ + 1, _, [] => []
  | fuel + 1, i, c :: t =>
    match tryFunctionAt (c :: t) with
    | some (nm, args, tl, rest) =>
      ⟨i, nm, args, tl⟩ :: scanFunctionsAux fuel (i + ((c :: t).length - rest.length)) rest
    | none => scanFunctionsAux fuel (i + 1) t

/-- All matches of `functionPattern` over the file text. -/
def scanFunctions (content : List Char) : List FnMatch :=
  scanFunctionsAux content.length 0 content

/-- Attempt of `event\s+([A-Za-z_][A-Za-z0-9_]*)` at the head. -/
def tryEventAt (cs : List Char) : Option (List Char × List Char) :=
  match stripLit "event".data cs with
  | none => none
  | some r0 =>
  match wsPlus r0 with
  | none => none
  | some r1 =>
  match r1 with
  | c :: t =>
    if isIdentStartChar c then
      some (c :: t.takeWhile isIdentChar, t.dropWhile isIdentChar)
    else none
  | [] => none

/-- Global scan of the event pattern. -/
def scanEventsAux : Nat → Nat → List Char → List (Nat × List Char)
  | 0, _, _ => []
  | _ + 1, _, [] => []
  | fuel + 1, i, c :: t =>
    match tryEventAt (c :: t) with
    | some (nm, rest) =>
      (i, nm) :: scanEventsAux fuel (i + ((c :: t).length - rest.length)) rest
    | none => scanEventsAux fuel (i + 1) t

/-- All matches of `eventPattern` over the file text. -/
def scanEvents (content : List Char) : List (Nat × List Char) :=
  scanEventsAux content.length 0 content

/-- First alternative of `(public|private|internal)` that is a literal
prefix of the text (the three literals are mutually prefix-free). -/
def tryVisPrefix (cs : List Char) : Option (List Char) :=
  match stripLit "public".data cs with
  | some r => some r
  | none =>
  match stripLit "private".data cs with
  | some r => some r
  | none => stripLit "internal".data cs

/-- Attempt of the constant pattern
`([A-Za-z_][A-Za-z0-9_]*)\s+(public|private|internal)?\s+constant`
at the head of the text.  When the optional visibility group is
empty the two `\s+` repetitions must share a run of at least two
whitespace characters. -/
def tryConstantAt (cs : List Char) : Option (List Char × List Char) :=
  match cs with
  | [] => none
  | c :: t =>
    if isIdentStartChar c then
      let nm := c :: t.takeWhile isIdentChar
      let r1 := t.dropWhile isIdentChar
      let w := r1.takeWhile isWsChar
      if w.isEmpty then none
      else
        let r2 := r1.drop w.length
        let visBranch : Option (List Char) :=
          match tryVisPrefix r2 with
          | some kwRest =>
            let w2 := kwRest.takeWhile isWsChar
            if w2.isEmpty then none
            else
              match stripLit "constant".data (kwRest.drop w2.length) with
              | some rest => some rest
              | none => none
          | none => none
        match visBranch with
        | some rest => some (nm, rest)
        | none =>
          if 2 ≤ w.length then
            match stripLit "constant".data r2 with
            | some rest => some (nm, rest)
            | none => none
          else none
    else none

/-- Global scan of the constant pattern. -/
def scanConstantsAux : Nat → Nat → List Char → List (Nat × List Char)
  | 0, _, _ => []
  | _ + 1, _, [] => []
  | fuel + 1, i, c :: t =>
    match tryConstantAt (c :: t) with
    | some (nm, rest) =>
      (i, nm) :: scanConstantsAux fuel (i + ((c :: t).length - rest.length)) rest
    | none => scanConstantsAux fuel (i + 1) t

/-- All matches of `constantPattern` over the file text. -/
def scanConstants (content : List Char) : List (Nat × List Char) :=
  scanConstantsAux content.length 0 content

/-- The four visibility keywords tried in the alternation order of
`\b(public|external|internal|private)\b`, with the trailing word
boundary. -/
def visKeywordAt (cs : List Char) : Option String :=
  let boundaryOk : List Char → Bool := fun rest =>
    match rest with
    | [] => true
    | d :: _ => !(isWordChar d)
  if "public".data.isPrefixOf cs && boundaryOk (cs.drop 6) then some "public"
  else if "external".data.isPrefixOf cs && boundaryOk (cs.drop 8) then some "external"
  else if "internal".data.isPrefixOf cs && boundaryOk (cs.drop 8) then some "internal"
  else if "private".data.isPrefixOf cs && boundaryOk (cs.drop 7) then some "private"
  else none

/-- Leftmost match of `\b(public|external|internal|private)\b`; the
boolean records whether a word boundary holds before the current
position. -/
def findVisibilityAux : Bool → List Char → Option String
  | _, [] => none
  | bOk, c :: t =>
    match (if bOk then visKeywordAt (c :: t) else none) with
    | some kw => some kw
    | none => findVisibilityAux (!(isWordChar c)) t

/-- Visibility extracted from the modifier tail, defaulting to
`internal` when no keyword is found. -/
def extractVisibility (tl : List Char) : String :=
  (findVisibilityAux true tl).getD "internal"

/-- Attempt of the argument-name pattern
`\s+([A-Za-z_][A-Za-z0-9_]*)(?:\s*$|\s*\[)` at the head of an
argument fragment. -/
def tryArgNameAt (cs : List Char) : Option (List Char) :=
  match wsPlus cs with
  | none => none
  | some r1 =>
  match r1 with
  | c :: t =>
    if isIdentStartChar c then
      let nm := c :: t.takeWhile isIdentChar
      match (t.dropWhile isIdentChar).dropWhile isWsChar with
      | [] => some nm
      | '[' :: _ => some nm
      | _ => none
    else none
  | [] => none

/-- Leftmost match of the argument-name pattern. -/
def argNameMatch : List Char → Option (List Char)
  | [] => none
  | c :: t =>
    match tryArgNameAt (c :: t) with
    | some nm => some nm
    | none => argNameMatch t

/-- Findings emitted for one function match: the private/internal
naming rule, the general naming rule, and the argument naming rule. -/
def functionFindings (rules : NamingRules) (map : List (String × String))
    (path : String) (content : List Char) (m : FnMatch) : List Finding :=
  if m.name == "constructor".data || m.name == "receive".data
      || m.name == "fallback".data then []
  else
    let visibility := extractVisibility m.tail
    let lineNumber := lineOf content m.idx
    (if rules.privateInternalFunctions == some "_underscoreMixedCase" then
      if (visibility == "private" || visibility == "internal")
          && !(isUnderscoreMixedCase m.name) then
        [⟨path, lineNumber, "naming.privateInternalFunctions",
          visibility ++ " function \x27" ++ String.mk m.name
            ++ "\x27 should use _underscoreMixedCase style", "error"⟩]
      else []
    else [])
    ++
    (if rules.functions == some "mixedCase" then
      if !((visibility == "private" || visibility == "internal")
            && rules.privateInternalFunctions == some "_underscoreMixedCase")
          && !(isMixedCase m.name) then
        [⟨path, lineNumber, "naming.functions",
          "Function name \x27" ++ String.mk m.name ++ "\x27 should use mixedCase style",
          sevLookup map "naming.functions" "error"⟩]
      else []
    else [])
    ++
    (if rules.functionArguments == some "_underscoreMixedCase"
        && !(jsTrim m.args).isEmpty then
      (splitOnChar ',' m.args).flatMap fun rawArg =>
        if (jsTrim rawArg).isEmpty then []
        else
          match argNameMatch (jsTrim rawArg) with
          | some argName =>
            if argName == "memory".data || argName == "storage".data
                || argName == "calldata".data then []
            else if !(isUnderscoreMixedCase argName) then
              [⟨path, lineNumber, "naming.functionArguments",
                "Function argument \x27" ++ String.mk argName
                  ++ "\x27 should use _underscoreMixedCase style", "error"⟩]
            else []
          | none => []
    else [])

/-- Findings emitted by `checkNaming` for one file. -/
def namingDelta (o : Option NamingRules) (map : List (String × String))
    (path : String) (content : List Char) : List Finding :=
  match o with
  | none => []
  | some rules =>
    (if truthyOpt rules.contracts then
      (scanContracts content).flatMap fun p =>
        if rules.contracts == some "CapWords" && !(isCapWords p.2) then
          [⟨path, lineOf content p.1, "naming.contracts",
            "Contract name \x27" ++ String.mk p.2 ++ "\x27 should use CapWords style",
            sevLookup map "naming.contracts" "error"⟩]
        else []
    else [])
    ++
    (if truthyOpt rules.functions || truthyOpt rules.functionArguments
        || truthyOpt rules.privateInternalFunctions then
      (scanFunctions content).flatMap (functionFindings rules map path content)
    else [])
    ++
    (if truthyOpt rules.events then
      (scanEvents content).flatMap fun p =>
        (if rules.events == some "CapWords" && !(isCapWords p.2) then
          [⟨path, lineOf content p.1, "naming.events",
            "Event name \x27" ++ String.mk p.2 ++ "\x27 should use CapWords style",
            "error"⟩]
        else [])
        ++
        (if rules.eventsPastTense && !(isPastTense p.2) then
          [⟨path, lineOf content p.1, "naming.eventsPastTense",
            "Event name \x27" ++ String.mk p.2
              ++ "\x27 should be past tense (e.g., \x27OwnerUpdated\x27 not \x27OwnerUpdate\x27)",
            "info"⟩]
        else [])
    else [])
    ++
    (if truthyOpt rules.constants then
      (scanConstants content).flatMap fun p =>
        if rules.constants == some "UPPER_CASE" && !(isUpperCase p.2) then
          [⟨path, lineOf content p.1, "naming.constants",
            "Constant \x27" ++ String.mk p.2
              ++ "\x27 should use UPPER_CASE_WITH_UNDERSCORES style", "error"⟩]
        else []
    else [])

/-- Stateful form of the naming pass. -/
def checkNaming (o : Option NamingRules) (map : List (String × String))
    (path : String) (content : List Char) (st : CheckerState) : CheckerState :=
  emitList st (namingDelta o map path content)

/-- `line.match(/\s+$/)`: the line ends in at least one whitespace
character. -/
def endsWithWs (cs : List Char) : Bool :=
  match cs.getLast? with
  | some c => isWsChar c
  | none => false

/-- Findings emitted by `checkLayout` for one file.  Note the tab
check is guarded by `rules.indentation && rules.noTabs` in the
source, so a zero (falsy) indentation value disables it. -/
def layoutDelta (o : Option LayoutRules) (map : List (String × String))
    (path : String) (lines : List (List Char)) : List Finding :=
  match o with
  | none => []
  | some rules =>
    lines.enum.flatMap fun p =>
      let lineNumber := p.1 + 1
      let line := p.2
      (if rules.maxLineLength != 0 && decide (rules.maxLineLength < line.length) then
        [⟨path, lineNumber, "layout.maxLineLength",
          "Line length " ++ toString line.length ++ " exceeds maximum "
            ++ toString rules.maxLineLength,
          sevLookup map "layout.maxLineLength" "warning"⟩]
      else [])
      ++
      (if rules.indentation != 0 && rules.noTabs && line.contains '\t' then
        [⟨path, lineNumber, "layout.noTabs",
          "Use spaces instead of tabs for indentation", "error"⟩]
      else [])
      ++
      (if rules.noTrailingWhitespace && endsWithWs line then
        [⟨path, lineNumber, "layout.noTrailingWhitespace",
          "Remove trailing whitespace", "warning"⟩]
      else [])

/-- Stateful form of the layout pass. -/
def checkLayout (o : Option LayoutRules) (map : List (String × String))
    (path : String) (lines : List (List Char)) (st : CheckerState) : CheckerState :=
  emitList st (layoutDelta o map path lines)

/-- All findings emitted for one file, in pass order
(structure, imports, naming, layout). -/
def fileDelta (cfg : Config) (path content : String) : List Finding :=
  let cs := content.data
  let lines := splitLines cs
  structureDelta cfg.struct cfg.ruleSeverityMap path cs lines
    ++ importsDelta cfg.imports path lines
    ++ namingDelta cfg.naming cfg.ruleSeverityMap path cs
    ++ layoutDelta cfg.layout cfg.ruleSeverityMap path lines

/-- `checkFile`: bump the file counter, then run the four passes. -/
def checkFile (cfg : Config) (path content : String) (st : CheckerState) : CheckerState :=
  let cs := content.data
  let lines := splitLines cs
  let st1 : CheckerState := ⟨{ st.stats with files := st.stats.files + 1 }, st.issues⟩
  checkLayout cfg.layout cfg.ruleSeverityMap path lines
    (checkNaming cfg.naming cfg.ruleSeverityMap path cs
      (checkImports cfg.imports path lines
        (checkFileStructure cfg.struct cfg.ruleSeverityMap path cs lines st1)))

/-- The main loop: check every discovered file in order. -/
def runChecker (cfg : Config) (files : List (String × String))
    (st : CheckerState) : CheckerState :=
  files.foldl (fun acc pc => checkFile cfg pc.1 pc.2 acc) st

/-- The process exit status computed in `main`: 1 when `stats.errors`
is positive, 0 otherwise. -/
def exitCode (st : CheckerState) : Nat :=
  if 0 < st.stats.errors then 1 else 0

/-- The findings of a whole run from the initial state, file by file. -/
def runDelta (cfg : Config) (files : List (String × String)) : List Finding :=
  files.flatMap fun pc => fileDelta cfg pc.1 pc.2

/-- `RULE_SEVERITY` as shipped in `build-config.js`. -/
def defaultRuleSeverity : List (String × String) :=
  [("naming.contracts", "error"),
   ("naming.functions", "error"),
   ("naming.functionArguments", "error"),
   ("naming.privateInternalFunctions", "error"),
   ("structure.spdxLicense", "error"),
   ("layout.indentation", "error"),
   ("layout.maxLineLength", "warning"),
   ("imports.alphabetical", "warning"),
   ("naming.eventsPastTense", "info"),
   ("advanced.namedParameters", "info")]

/-- `RULES.naming` as shipped in `build-config.js` (checker-read fields). -/
def defaultNamingRules : NamingRules :=
  ⟨some "CapWords", some "mixedCase", some "UPPER_CASE", some "CapWords",
   true, some "_underscoreMixedCase", some "_underscoreMixedCase"⟩

/-- The full shipped configuration (checker-read fields). -/
def defaultConfig : Config :=
  ⟨some ⟨true, true, true⟩,
   some ⟨true, true⟩,
   some defaultNamingRules,
   some ⟨4, true, 120, true⟩,
   defaultRuleSeverity⟩

/-- A configuration with every rule category absent. -/
def emptyConfig : Config :=
  ⟨none, none, none, none, []⟩

theorem addIssue_issues (st : CheckerState) (f : Finding) :
    (addIssue st f).issues = st.issues ++ [f] := rfl

theorem bumpStats_errors (s : Stats) (sev : String) :
    (bumpStats s sev).errors = s.errors + (if sev == "error" then 1 else 0) := by
  unfold bumpStats
  split
  · simp_all
  · split
    · simp_all
    · split <;> simp_all

theorem emitList_issues : ∀ (fs : List Finding) (st : CheckerState),
    (emitList st fs).issues = st.issues ++ fs
  | [], st => by simp [emitList]
  | f :: t, st => by
    have ih := emitList_issues t (addIssue st f)
    simp only [emitList, List.foldl_cons] at ih ⊢
    rw [ih, addIssue_issues, List.append_assoc, List.singleton_append]

theorem emitList_errors : ∀ (fs : List Finding) (st : CheckerState),
    (emitList st fs).stats.errors
      = st.stats.errors + fs.countP (fun f => f.severity == "error")
  | [], st => by simp [emitList]
  | f :: t, st => by
    have ih := emitList_errors t (addIssue st f)
    simp only [emitList, List.foldl_cons] at ih ⊢
    rw [ih, List.countP_cons]
    show (bumpStats st.stats f.severity).errors + _ = _
    rw [bumpStats_errors]
    omega

theorem checkFile_issues (cfg : Config) (path content : String) (st : CheckerState) :
    (checkFile cfg path content st).issues = st.issues ++ fileDelta cfg path content := by
  simp only [checkFile, checkLayout, checkNaming, checkImports, checkFileStructure,
    emitList_issues, fileDelta, List.append_assoc]

theorem checkFile_errors (cfg : Config) (path content : String) (st : CheckerState) :
    (checkFile cfg path content st).stats.errors
      = st.stats.errors + (fileDelta cfg path content).countP (fun f => f.severity == "error") := by
  simp only [checkFile, checkLayout, checkNaming, checkImports, checkFileStructure,
    emitList_errors, fileDelta, List.countP_append]
  omega

theorem runChecker_issues : ∀ (files : List (String × String)) (cfg : Config) (st : CheckerState),
    (runChecker cfg files st).issues = st.issues ++ runDelta cfg files
  | [], cfg, st => by simp [runChecker, runDelta]
  | pc :: t, cfg, st => by
    have ih := runChecker_issues t cfg (checkFile cfg pc.1 pc.2 st)
    simp only [runChecker, List.foldl_cons, runDelta, List.flatMap_cons] at ih ⊢
    rw [ih, checkFile_issues, List.append_assoc]

theorem runChecker_errors : ∀ (files : List (String × String)) (cfg : Config) (st : CheckerState),
    (runChecker cfg files st).stats.errors
      = st.stats.errors + (runDelta cfg files).countP (fun f => f.severity == "error")
  | [], cfg, st => by simp [runChecker, runDelta]
  | pc :: t, cfg, st => by
    have ih := runChecker_errors t cfg (checkFile cfg pc.1 pc.2 st)
    simp only [runChecker, List.foldl_cons, runDelta, List.flatMap_cons] at ih ⊢
    rw [ih, checkFile_errors, List.countP_append]
    omega

theorem mem_structureDelta {o : Option StructureRules} {map : List (String × String)}
    {path : String} {content : List Char} {lines : List (List Char)} {f : Finding}
    (h : f ∈ structureDelta o map path content lines) :
    (f.rule = "structure.spdxLicense"
        ∧ f.severity = sevLookup map "structure.spdxLicense" "error")
    ∨ (f.rule = "structure.spdxAtTop" ∧ f.severity = "warning")
    ∨ (f.rule = "structure.pragmaAfterLicense" ∧ f.severity = "warning") := by
  cases o with
  | none => simp [structureDelta] at h
  | some rules =>
    simp only [structureDelta, List.mem_append] at h
    rcases h with h | h <;>
      (repeat' split at h) <;> simp_all

theorem mem_importsDelta {o : Option ImportRules} {path : String}
    {lines : List (List Char)} {f : Finding}
    (h : f ∈ importsDelta o path lines) :
    (f.rule = "imports.namedOnly" ∧ f.severity = "warning")
    ∨ (f.rule = "imports.alphabetical" ∧ f.severity = "warning") := by
  cases o with
  | none => simp [importsDelta] at h
  | some rules =>
    simp only [importsDelta, List.mem_flatMap] at h
    obtain ⟨p, -, h⟩ := h
    rw [List.mem_append] at h
    rcases h with h | h <;>
      (repeat' split at h) <;> simp_all

theorem mem_functionFindings {rules : NamingRules} {map : List (String × String)}
    {path : String} {content : List Char} {m : FnMatch} {f : Finding}
    (h : f ∈ functionFindings rules map path content m) :
    (f.rule = "naming.privateInternalFunctions" ∧ f.severity = "error")
    ∨ (f.rule = "naming.functions"
        ∧ f.severity = sevLookup map "naming.functions" "error")
    ∨ (f.rule = "naming.functionArguments" ∧ f.severity = "error") := by
  unfold functionFindings at h
  split at h
  · simp at h
  · rw [List.mem_append, List.mem_append] at h
    rcases h with (h | h) | h
    · (repeat' split at h) <;> simp_all
    · (repeat' split at h) <;> simp_all
    · split at h
      · rw [List.mem_flatMap] at h
        obtain ⟨arg, -, h⟩ := h
        split at h
        · simp at h
        · rcases hA : argNameMatch (jsTrim arg) with - | argName <;>
            rw [hA] at h
          · simp at h
          · (repeat' split at h) <;> simp_all
      · simp at h

theorem mem_namingDelta {o : Option NamingRules} {map : List (String × String)}
    {path : String} {content : List Char} {f : Finding}
    (h : f ∈ namingDelta o map path content) :
    (f.rule = "naming.contracts"
        ∧ f.severity = sevLookup map "naming.contracts" "error")
    ∨ (f.rule = "naming.privateInternalFunctions" ∧ f.severity = "error")
    ∨ (f.rule = "naming.functions"
        ∧ f.severity = sevLookup map "naming.functions" "error")
    ∨ (f.rule = "naming.functionArguments" ∧ f.severity = "error")
    ∨ (f.rule = "naming.events" ∧ f.severity = "error")
    ∨ (f.rule = "naming.eventsPastTense" ∧ f.severity = "info")
    ∨ (f.rule = "naming.constants" ∧ f.severity = "error") := by
  cases o with
  | none => simp [namingDelta] at h
  | some rules =>
    simp only [namingDelta, List.mem_append] at h
    rcases h with ((h | h) | h) | h
    · split at h
      · rw [List.mem_flatMap] at h
        obtain ⟨p, -, h⟩ := h
        (repeat' split at h) <;> simp_all
      · simp at h
    · split at h
      · rw [List.mem_flatMap] at h
        obtain ⟨m, -, h⟩ := h
        rcases mem_functionFindings h with h' | h' | h' <;> simp_all
      · simp at h
    · split at h
      · rw [List.mem_flatMap] at h
        obtain ⟨p, -, h⟩ := h
        rw [List.mem_append] at h
        rcases h with h | h <;> (repeat' split at h) <;> simp_all
      · simp at h
    · split at h
      · rw [List.mem_flatMap] at h
        obtain ⟨p, -, h⟩ := h
        (repeat' split at h) <;> simp_all
      · simp at h

theorem mem_layoutDelta {o : Option LayoutRules} {map : List (String × String)}
    {path : String} {lines : List (List Char)} {f : Finding}
    (h : f ∈ layoutDelta o map path lines) :
    (f.rule = "layout.maxLineLength"
        ∧ f.severity = sevLookup map "layout.maxLineLength" "warning")
    ∨ (f.rule = "layout.noTabs" ∧ f.severity = "error")
    ∨ (f.rule = "layout.noTrailingWhitespace" ∧ f.severity = "warning") := by
  cases o with
  | none => simp [layoutDelta] at h
  | some rules =>
    simp only [layoutDelta, List.mem_flatMap] at h
    obtain ⟨p, -, h⟩ := h
    rw [List.mem_append, List.mem_append] at h
    rcases h with (h | h) | h <;>
      (repeat' split at h) <;> simp_all

/-- C3: a rule category that is absent from the configuration
contributes no findings at all: no finding whose rule identifier lies
in that category is emitted, for any input file. -/
theorem checker_disabled_category_emits_nothing (cfg : Config) (path content : String) :
    (cfg.struct = none →
      (fileDelta cfg path content).countP
        (fun f => "structure.".data.isPrefixOf f.rule.data) = 0)
    ∧ (cfg.imports = none →
      (fileDelta cfg path content).countP
        (fun f => "imports.".data.isPrefixOf f.rule.data) = 0)
    ∧ (cfg.naming = none →
      (fileDelta cfg path content).countP
        (fun f => "naming.".data.isPrefixOf f.rule.data) = 0)
    ∧ (cfg.layout = none →
      (fileDelta cfg path content).countP
        (fun f => "layout.".data.isPrefixOf f.rule.data) = 0) := by
  refine ⟨?_, ?_, ?_, ?_⟩ <;> intro hnone <;>
    rw [List.countP_eq_zero] <;> intro f hf <;>
    simp only [fileDelta, List.mem_append] at hf <;>
    rcases hf with ((hf | hf) | hf) | hf
  · rw [hnone] at hf; simp [structureDelta] at hf
  · rcases mem_importsDelta hf with ⟨h1, -⟩ | ⟨h1, -⟩ <;> simp [h1]
  · rcases mem_namingDelta hf with
      ⟨h1, -⟩ | ⟨h1, -⟩ | ⟨h1, -⟩ | ⟨h1, -⟩ | ⟨h1, -⟩ | ⟨h1, -⟩ | ⟨h1, -⟩ <;> simp [h1]
  · rcases mem_layoutDelta hf with ⟨h1, -⟩ | ⟨h1, -⟩ | ⟨h1, -⟩ <;> simp [h1]
  · rcases mem_structureDelta hf with ⟨h1, -⟩ | ⟨h1, -⟩ | ⟨h1, -⟩ <;> simp [h1]
  · rw [hnone] at hf; simp [importsDelta] at hf
  · rcases mem_namingDelta hf with
      ⟨h1, -⟩ | ⟨h1, -⟩ | ⟨h1, -⟩ | ⟨h1, -⟩ | ⟨h1, -⟩ | ⟨h1, -⟩ | ⟨h1, -⟩ <;> simp [h1]
  · rcases mem_layoutDelta hf with ⟨h1, -⟩ | ⟨h1, -⟩ | ⟨h1, -⟩ <;> simp [h1]
  · rcases mem_structureDelta hf with ⟨h1, -⟩ | ⟨h1, -⟩ | ⟨h1, -⟩ <;> simp [h1]
  · rcases mem_importsDelta hf with ⟨h1, -⟩ | ⟨h1, -⟩ <;> simp [h1]
  · rw [hnone] at hf; simp [namingDelta] at hf
  · rcases mem_layoutDelta hf with ⟨h1, -⟩ | ⟨h1, -⟩ | ⟨h1, -⟩ <;> simp [h1]
  · rcases mem_structureDelta hf with ⟨h1, -⟩ | ⟨h1, -⟩ | ⟨h1, -⟩ <;> simp [h1]
  · rcases mem_importsDelta hf with ⟨h1, -⟩ | ⟨h1, -⟩ <;> simp [h1]
  · rcases mem_namingDelta hf with
      ⟨h1, -⟩ | ⟨h1, -⟩ | ⟨h1, -⟩ | ⟨h1, -⟩ | ⟨h1, -⟩ | ⟨h1, -⟩ | ⟨h1, -⟩ <;> simp [h1]
  · rw [hnone] at hf; simp [layoutDelta] at hf

/-- Witness for C3: with every category absent, the run on a concrete
file emits no finding of any category. -/
theorem checker_disabled_category_emits_nothing_witness :
    ((fileDelta emptyConfig "A.sol" "contract x \x7b\x7d").countP
        (fun f => "structure.".data.isPrefixOf f.rule.data) = 0)
    ∧ ((fileDelta emptyConfig "A.sol" "contract x \x7b\x7d").countP
        (fun f => "imports.".data.isPrefixOf f.rule.data) = 0)
    ∧ ((fileDelta emptyConfig "A.sol" "contract x \x7b\x7d").countP
        (fun f => "naming.".data.isPrefixOf f.rule.data) = 0)
    ∧ ((fileDelta emptyConfig "A.sol" "contract x \x7b\x7d").countP
        (fun f => "layout.".data.isPrefixOf f.rule.data) = 0) := by
  have h := checker_disabled_category_emits_nothing emptyConfig "A.sol" "contract x \x7b\x7d"
  exact ⟨h.1 rfl, h.2.1 rfl, h.2.2.1 rfl, h.2.2.2 rfl⟩

/-- C10: the structure pass emits at most one of `MissingSPDX` and
`SPDXNotAtTop` per file, it emits `SPDXNotAtTop` only when the SPDX
marker occurs somewhere in the file, and both findings always carry
line number 1. -/
theorem checker_spdx_structure_exclusive (o : Option StructureRules)
    (map : List (String × String)) (path : String) (content : String) :
    ((structureDelta o map path content.data (splitLines content.data)).countP
        (fun f => f.rule == "structure.spdxLicense") = 0
      ∨ (structureDelta o map path content.data (splitLines content.data)).countP
        (fun f => f.rule == "structure.spdxAtTop") = 0)
    ∧ (containsSub spdxMarker content.data = false →
      (structureDelta o map path content.data (splitLines content.data)).countP
        (fun f => f.rule == "structure.spdxAtTop") = 0)
    ∧ (∀ f ∈ structureDelta o map path content.data (splitLines content.data),
      f.rule = "structure.spdxLicense" ∨ f.rule = "structure.spdxAtTop" →
        f.line = 1) := by
  have hTop : containsSub spdxMarker content.data = false →
      (structureDelta o map path content.data (splitLines content.data)).countP
        (fun f => f.rule == "structure.spdxAtTop") = 0 := by
    intro hs
    rw [List.countP_eq_zero]
    intro f hf
    cases o with
    | none => simp [structureDelta] at hf
    | some rules =>
      simp only [structureDelta, List.mem_append] at hf
      rcases hf with hf | hf <;> (repeat' split at hf) <;> simp_all
  have hLic : containsSub spdxMarker content.data = true →
      (structureDelta o map path content.data (splitLines content.data)).countP
        (fun f => f.rule == "structure.spdxLicense") = 0 := by
    intro hs
    rw [List.countP_eq_zero]
    intro f hf
    cases o with
    | none => simp [structureDelta] at hf
    | some rules =>
      simp only [structureDelta, List.mem_append] at hf
      rcases hf with hf | hf <;> (repeat' split at hf) <;> simp_all
  refine ⟨?_, hTop, ?_⟩
  · by_cases hs : containsSub spdxMarker content.data
    · exact Or.inl (hLic hs)
    · exact Or.inr (hTop (by simp_all))
  · intro f hf hr
    cases o with
    | none => simp [structureDelta] at hf
    | some rules =>
      simp only [structureDelta, List.mem_append] at hf
      rcases hf with hf | hf <;> (repeat' split at hf) <;> simp_all

/-- Witness for C10 at a concrete file without an SPDX marker. -/
theorem checker_spdx_structure_exclusive_witness :
    ((structureDelta (some ⟨true, true, true⟩) [] "A.sol" "contract C \x7b\x7d".data
        (splitLines "contract C \x7b\x7d".data)).countP
      (fun f => f.rule == "structure.spdxAtTop") = 0)
    ∧ ((⟨"A.sol", 1, "structure.spdxLicense", "Missing SPDX license identifier",
          "error"⟩ : Finding) ∈
        structureDelta (some ⟨true, true, true⟩) [] "A.sol" "contract C \x7b\x7d".data
          (splitLines "contract C \x7b\x7d".data) →
      (⟨"A.sol", 1, "structure.spdxLicense", "Missing SPDX license identifier",
          "error"⟩ : Finding).line = 1) := by
  have h := checker_spdx_structure_exclusive (some ⟨true, true, true⟩) [] "A.sol"
    "contract C \x7b\x7d"
  exact ⟨h.2.1 (by decide), fun hm => h.2.2 _ hm (Or.inl rfl)⟩

/-- C2: for every function match of the naming pass, at most one of
the `naming.privateInternalFunctions` and `naming.functions` findings
is emitted — never both — and in particular the private function
`function validateInput() private \x7b \x7d` under the shipped
configuration yields exactly one `naming.privateInternalFunctions`
finding and zero `naming.functions` findings. -/
theorem checker_naming_rules_mutually_exclusive :
    (∀ (rules : NamingRules) (map : List (String × String)) (path : String)
        (content : List Char) (m : FnMatch),
      (functionFindings rules map path content m).countP
          (fun f => f.rule == "naming.privateInternalFunctions") = 0
        ∨ (functionFindings rules map path content m).countP
          (fun f => f.rule == "naming.functions") = 0)
    ∧ ((namingDelta (some defaultNamingRules) defaultRuleSeverity "A.sol"
          "function validateInput() private \x7b \x7d".data).countP
        (fun f => f.rule == "naming.privateInternalFunctions") = 1
      ∧ (namingDelta (some defaultNamingRules) defaultRuleSeverity "A.sol"
          "function validateInput() private \x7b \x7d".data).countP
        (fun f => f.rule == "naming.functions") = 0) := by
  refine ⟨?_, by decide, by decide⟩
  intro rules map path content m
  by_cases hSH : ((extractVisibility m.tail == "private"
        || extractVisibility m.tail == "internal")
      && rules.privateInternalFunctions == some "_underscoreMixedCase") = true
  · right
    rw [List.countP_eq_zero]
    intro f hf
    simp only [functionFindings] at hf
    split at hf
    · simp at hf
    · rw [List.mem_append, List.mem_append] at hf
      rcases hf with (hf | hf) | hf
      · (repeat' split at hf) <;> simp_all
      · (repeat' split at hf) <;> simp_all
      · split at hf
        · rw [List.mem_flatMap] at hf
          obtain ⟨arg, -, hf⟩ := hf
          split at hf
          · simp at hf
          · rcases hA : argNameMatch (jsTrim arg) with - | argName <;>
              rw [hA] at hf
            · simp at hf
            · (repeat' split at hf) <;> simp_all
        · simp at hf
  · left
    rw [List.countP_eq_zero]
    intro f hf
    simp only [functionFindings] at hf
    split at hf
    · simp at hf
    · rw [List.mem_append, List.mem_append] at hf
      rcases hf with (hf | hf) | hf
      · (repeat' split at hf) <;> simp_all
      · (repeat' split at hf) <;> simp_all
      · split at hf
        · rw [List.mem_flatMap] at hf
          obtain ⟨arg, -, hf⟩ := hf
          split at hf
          · simp at hf
          · rcases hA : argNameMatch (jsTrim arg) with - | argName <;>
              rw [hA] at hf
            · simp at hf
            · (repeat' split at hf) <;> simp_all
        · simp at hf

theorem enum_adjacent_aux {α : Type} {β : Type} (g : α → α → List β) (full : List α) :
    ∀ (t : List α) (k : Nat) (prev : α),
      full.get? k = some prev →
      (∀ j, full.get? (k + 1 + j) = t.get? j) →
      ((t.enumFrom (k + 1)).flatMap fun p =>
        if p.1 != 0 then
          match full.get? (p.1 - 1) with
          | some pv => g pv p.2
          | none => []
        else ([] : List β))
      = ((prev :: t).zip t).flatMap fun q => g q.1 q.2
  | [], _, _, _, _ => by simp
  | x :: xs, k, prev, hk, hs => by
    have h0 : full.get? (k + 1) = some x := by
      have := hs 0
      simpa using this
    have hs' : ∀ j, full.get? (k + 1 + 1 + j) = xs.get? j := by
      intro j
      have h := hs (j + 1)
      rw [show k + 1 + (j + 1) = k + 1 + 1 + j by omega] at h
      simpa [List.get?_eq_getElem?, List.getElem?_cons_succ] using h
    have ih := enum_adjacent_aux g full xs (k + 1) x h0 hs'
    rw [List.enumFrom_cons, List.flatMap_cons, List.zip_cons_cons, List.flatMap_cons, ih]
    have hcond : ((k + 1 : Nat) != 0) = true := by simp
    rw [if_pos hcond]
    have : (k + 1 : Nat) - 1 = k := by omega
    rw [this, hk]

theorem enum_adjacent {α : Type} {β : Type} (g : α → α → List β) (l : List α) :
    (l.enum.flatMap fun p =>
      if p.1 != 0 then
        match l.get? (p.1 - 1) with
        | some pv => g pv p.2
        | none => []
      else ([] : List β))
    = (l.zip l.tail).flatMap fun q => g q.1 q.2 := by
  cases l with
  | nil => simp
  | cons a t =>
    have haux := enum_adjacent_aux g (a :: t) t 0 a (by simp)
      (by
        intro j
        rw [List.get?_eq_getElem?, List.get?_eq_getElem?,
          show (0 : Nat) + 1 + j = j + 1 by omega, List.getElem?_cons_succ])
    rw [List.enum_cons, List.flatMap_cons]
    simpa using haux

theorem filter_drop_named (c : Prop) [Decidable c] (x : Finding)
    (hx : x.rule = "imports.namedOnly") :
    List.filter (fun f => f.rule == "imports.alphabetical") (if c then [x] else [])
      = [] := by
  split <;> simp [hx]

/-- C4: with the alphabetical rule enabled, the
`imports.alphabetical` findings of the import pass are exactly one
finding per adjacent pair of collected imports whose two extracted
paths are both non-null with the current one lexicographically
smaller, at the current import's line; pairs with a null path are
silently skipped, and a descending run of k+1 imports therefore
yields exactly k findings. -/
theorem checker_alphabetical_adjacent (b : Bool) (path : String)
    (lines : List (List Char)) :
    (importsDelta (some ⟨b, true⟩) path lines).filter
        (fun f => f.rule == "imports.alphabetical")
      = ((importLines lines).zip (importLines lines).tail).flatMap fun q =>
          match extractImportPath q.2.1, extractImportPath q.1.1 with
          | some currentFrom, some previousFrom =>
            if charListLt currentFrom previousFrom then
              [(⟨path, q.2.2, "imports.alphabetical",
                "Imports should be alphabetically ordered", "warning"⟩ : Finding)]
            else []
          | some _, none => []
          | none, _ => [] := by
  simp only [importsDelta]
  rw [List.filter_flatMap]
  refine Eq.trans (List.flatMap_congr ?_)
    (enum_adjacent
      (fun prev cur =>
        match extractImportPath cur.1, extractImportPath prev.1 with
        | some currentFrom, some previousFrom =>
          if charListLt currentFrom previousFrom then
            [(⟨path, cur.2, "imports.alphabetical",
              "Imports should be alphabetically ordered", "warning"⟩ : Finding)]
          else []
        | some _, none => []
        | none, _ => [])
      (importLines lines))
  intro p hp
  obtain ⟨idx, line, ln⟩ := p
  rw [List.filter_append, filter_drop_named _ _ rfl, List.nil_append,
    List.filter_eq_self.mpr ?hkeep]
  case hkeep =>
    intro x hx
    (repeat' split at hx) <;> simp_all
  · dsimp only
    rw [Bool.true_and]
    (repeat' split) <;> simp_all [List.getElem?_eq_none]

/-- Identifier name: `[A-Za-z_][A-Za-z0-9_]*`. -/
def isIdentifierName : List Char → Bool
  | [] => false
  | c :: t => isIdentStartChar c && t.all isIdentChar

/-- Modelled from the spec: the named-import grammar as the spec
words it — `import`, whitespace, braces containing one or more
comma-free identifier names, `from`, a quoted path (matching quotes),
and an optional trailing semicolon.  This is the comparison target
for the refinement claim about `namedImportPattern`. -/
def specNamedImportMatch (cs : List Char) : Bool :=
  match stripLit "import".data cs with
  | none => false
  | some r0 =>
  match wsPlus r0 with
  | none => false
  | some r1 =>
  match r1 with
  | '{' :: r2 =>
    let inner := r2.takeWhile (fun c => c != '}')
    if !((splitOnChar ',' inner).all fun piece => isIdentifierName (jsTrim piece)) then
      false
    else
      match r2.drop inner.length with
      | '}' :: r3 =>
        match wsPlus r3 with
        | none => false
        | some r4 =>
        match stripLit "from".data r4 with
        | none => false
        | some r5 =>
        match wsPlus r5 with
        | none => false
        | some r6 =>
        match r6 with
        | q :: r7 =>
          if isQuoteChar q then
            let pathPart := r7.takeWhile (fun c => !(isQuoteChar c))
            if pathPart.isEmpty then false
            else
              match r7.drop pathPart.length with
              | q2 :: r8 => q2 == q && (r8.isEmpty || r8 == [';'])
              | [] => false
          else false
        | [] => false
      | _ => false
  | _ => false

theorem enumFrom_snd_flatMap {α β : Type} (h : α → List β) :
    ∀ (l : List α) (n : Nat),
      (l.enumFrom n).flatMap (fun p => h p.2) = l.flatMap h
  | [], _ => rfl
  | x :: xs, n => by
    rw [List.enumFrom_cons, List.flatMap_cons, List.flatMap_cons,
      enumFrom_snd_flatMap h xs (n + 1)]

theorem enum_snd_flatMap {α β : Type} (h : α → List β) (l : List α) :
    l.enum.flatMap (fun p => h p.2) = l.flatMap h :=
  enumFrom_snd_flatMap h l 0

theorem filter_named_keep (c : Prop) [Decidable c] (x : Finding)
    (hx : x.rule = "imports.namedOnly") :
    List.filter (fun f => f.rule == "imports.namedOnly") (if c then [x] else [])
      = if c then [x] else [] := by
  split <;> simp [hx]

/-- Counterexample to C5 as stated: the import line
`import \x7b%\x7d from "./a.sol";` fails the claimed grammar (the
brace content `%` is not an identifier name), yet the checker emits
no `imports.namedOnly` finding for it, because the actual pattern
accepts any non-empty run of non-`\x7d` characters inside the
braces. -/
theorem checker_named_import_grammar_counterexample :
    specNamedImportMatch "import \x7b%\x7d from \"./a.sol\";".data = false
    ∧ importsDelta (some ⟨true, false⟩) "A.sol"
        ["import \x7b%\x7d from \"./a.sol\";".data] = [] :=
  ⟨by decide, by decide⟩

/-- C5 (amended): with the named-only rule enabled, an
`imports.namedOnly` finding is emitted for exactly the collected
lines of import whose trimmed text fails the pattern: `import`,
whitespace, `\x7b`, one or more characters other than `\x7d` (any
characters), `\x7d`, whitespace, `from`, whitespace, a single or
double quote, one or more non-quote characters, a single or double
quote (not necessarily matching), and an optional trailing
semicolon. -/
theorem checker_named_import_regex_characterization (b : Bool) (path : String)
    (lines : List (List Char)) :
    (importsDelta (some ⟨true, b⟩) path lines).filter
        (fun f => f.rule == "imports.namedOnly")
      = (importLines lines).flatMap fun q =>
          if matchNamedImport q.1 then []
          else [⟨path, q.2, "imports.namedOnly",
            "Use named imports: import {Contract} from \"./file.sol\"", "warning"⟩] := by
  simp only [importsDelta]
  rw [List.filter_flatMap]
  refine Eq.trans (List.flatMap_congr ?_)
    (enum_snd_flatMap
      (fun q =>
        if matchNamedImport q.1 then []
        else [(⟨path, q.2, "imports.namedOnly",
          "Use named imports: import {Contract} from \"./file.sol\"", "warning"⟩ : Finding)])
      (importLines lines))
  intro p hp
  rw [List.filter_append, filter_named_keep _ _ rfl,
    List.filter_eq_nil_iff.mpr ?halpha, List.append_nil]
  case halpha =>
    intro x hx
    (repeat' split at hx) <;> simp_all
  · dsimp only
    rw [Bool.true_and]
    by_cases hm : matchNamedImport p.2.1 <;> simp [hm]

/-- Counterexample to C6 as stated: with a SeverityMap entry mapping
`imports.namedOnly` to `error`, the emitted `NamedImportRequired`
finding still carries severity `warning` — the severity of this rule
is a hard-coded literal at its `addIssue` call site, not read from
the map. -/
theorem checker_severity_map_ignored_counterexample :
    sevLookup [("imports.namedOnly", "error")] "imports.namedOnly" "warning" = "error"
    ∧ (fileDelta ⟨none, some ⟨true, false⟩, none, none, [("imports.namedOnly", "error")]⟩
        "A.sol" "import \"./x.sol\";").map (fun f => (f.rule, f.severity))
      = [("imports.namedOnly", "warning")] :=
  ⟨by decide, by decide⟩

/-- The severity each rule identifier is emitted with, as a function
of the severity map: only `structure.spdxLicense`,
`naming.contracts`, `naming.functions` and `layout.maxLineLength`
consult the map (with defaults error, error, error, warning); every
other rule is emitted with a fixed literal severity. -/
def emittedSeverity (map : List (String × String)) (rule : String) : String :=
  if rule == "structure.spdxLicense" then sevLookup map "structure.spdxLicense" "error"
  else if rule == "naming.contracts" then sevLookup map "naming.contracts" "error"
  else if rule == "naming.functions" then sevLookup map "naming.functions" "error"
  else if rule == "layout.maxLineLength" then sevLookup map "layout.maxLineLength" "warning"
  else if rule == "naming.eventsPastTense" then "info"
  else if rule == "structure.spdxAtTop" || rule == "structure.pragmaAfterLicense"
      || rule == "imports.namedOnly" || rule == "imports.alphabetical"
      || rule == "layout.noTrailingWhitespace" then "warning"
  else "error"

/-- C6 (amended): every emitted finding's severity is the value of
`emittedSeverity` at its rule: the SeverityMap is consulted (entry
when present and non-empty, documented default otherwise) only for
`structure.spdxLicense`, `naming.contracts`, `naming.functions` and
`layout.maxLineLength`; all other rules, `imports.namedOnly`
included, carry fixed severities that ignore the map. -/
theorem checker_emitted_severity_table (cfg : Config) (path content : String) :
    ∀ f ∈ fileDelta cfg path content,
      f.severity = emittedSeverity cfg.ruleSeverityMap f.rule := by
  intro f hf
  simp only [fileDelta, List.mem_append] at hf
  rcases hf with ((hf | hf) | hf) | hf
  · rcases mem_structureDelta hf with ⟨h1, h2⟩ | ⟨h1, h2⟩ | ⟨h1, h2⟩ <;>
      simp [h1, h2, emittedSeverity]
  · rcases mem_importsDelta hf with ⟨h1, h2⟩ | ⟨h1, h2⟩ <;>
      simp [h1, h2, emittedSeverity]
  · rcases mem_namingDelta hf with
      ⟨h1, h2⟩ | ⟨h1, h2⟩ | ⟨h1, h2⟩ | ⟨h1, h2⟩ | ⟨h1, h2⟩ | ⟨h1, h2⟩ | ⟨h1, h2⟩ <;>
      simp [h1, h2, emittedSeverity]
  · rcases mem_layoutDelta hf with ⟨h1, h2⟩ | ⟨h1, h2⟩ | ⟨h1, h2⟩ <;>
      simp [h1, h2, emittedSeverity]

/-- Witness for the amended C6 at a concrete finding. -/
theorem checker_emitted_severity_table_witness :
    (⟨"A.sol", 1, "imports.namedOnly",
      "Use named imports: import {Contract} from \"./file.sol\"", "warning"⟩ : Finding)
      ∈ fileDelta ⟨none, some ⟨true, false⟩, none, none, [("imports.namedOnly", "error")]⟩
        "A.sol" "import \"./x.sol\";"
    ∧ (⟨"A.sol", 1, "imports.namedOnly",
      "Use named imports: import {Contract} from \"./file.sol\"", "warning"⟩ : Finding).severity
      = emittedSeverity [("imports.namedOnly", "error")]
        (⟨"A.sol", 1, "imports.namedOnly",
          "Use named imports: import {Contract} from \"./file.sol\"", "warning"⟩ : Finding).rule :=
  ⟨by decide,
    checker_emitted_severity_table
      ⟨none, some ⟨true, false⟩, none, none, [("imports.namedOnly", "error")]⟩
      "A.sol" "import \"./x.sol\";" _ (by decide)⟩

/-- Counterexample to C7 as stated: with the layout category present,
`noTabs` enabled but `indentation` zero (falsy), a line containing a
tab produces no finding at all, because the tab check is guarded by
`rules.indentation && rules.noTabs`. -/
theorem checker_notabs_requires_indentation_counterexample :
    ('\t' ∈ "\tuint x;".data)
    ∧ layoutDelta (some ⟨0, true, 0, false⟩) [] "A.sol" ["\tuint x;".data] = [] := by
  exact ⟨by decide, by decide⟩

/-- C7 (amended): whenever both `layout.noTabs` and a non-zero
`layout.indentation` are enabled, every physical line containing a
tab character produces a `layout.noTabs` finding with severity
`error` at that line. -/
theorem checker_notabs_with_indentation (ind maxLen : Nat) (ntw : Bool)
    (map : List (String × String)) (path : String) (lines : List (List Char))
    (i : Nat) (line : List Char)
    (hind : ind ≠ 0) (hline : lines[i]? = some line) (htab : '\t' ∈ line) :
    (⟨path, i + 1, "layout.noTabs", "Use spaces instead of tabs for indentation",
        "error"⟩ : Finding)
      ∈ layoutDelta (some ⟨ind, true, maxLen, ntw⟩) map path lines := by
  simp only [layoutDelta, List.mem_flatMap]
  refine ⟨(i, line), ?_, ?_⟩
  · rw [List.mem_enum_iff_getElem?]
    exact hline
  · simp [hind, htab]

/-- Witness for the amended C7 with the shipped layout rules. -/
theorem checker_notabs_with_indentation_witness :
    (⟨"A.sol", 1, "layout.noTabs", "Use spaces instead of tabs for indentation",
        "error"⟩ : Finding)
      ∈ layoutDelta (some ⟨4, true, 120, true⟩) [] "A.sol" ["\ta".data] :=
  checker_notabs_with_indentation 4 120 true [] "A.sol" ["\ta".data] 0 "\ta".data
    (by decide) (by decide) (by decide)

/-- C1: for every run, `summary.errors > 0` holds exactly when at
least one emitted finding has severity `error`, and the computed exit
status is non-zero exactly when `summary.errors > 0`; in particular
findings of severity `warning` or `info` never affect the exit
status. -/
theorem checker_exit_status_iff_error_findings (cfg : Config)
    (files : List (String × String)) :
    (0 < (runChecker cfg files initState).stats.errors
      ↔ ∃ f ∈ (runChecker cfg files initState).issues, f.severity = "error")
    ∧ (exitCode (runChecker cfg files initState) ≠ 0
      ↔ 0 < (runChecker cfg files initState).stats.errors) := by
  constructor
  · rw [runChecker_errors, runChecker_issues]
    simp [initState, List.countP_pos_iff]
  · unfold exitCode
    split
    · simp_all
    · simp_all

/-- C8: the engine is a deterministic function of its inputs: the
findings a run appends to the state are exactly the findings of a run
from the initial state, independent of anything accumulated before,
so two runs on identical file contents and configuration emit
byte-identical ordered finding sequences. -/
theorem checker_run_deterministic (cfg : Config) (files : List (String × String))
    (st : CheckerState) :
    (runChecker cfg files st).issues
      = st.issues ++ (runChecker cfg files initState).issues := by
  rw [runChecker_issues, runChecker_issues]
  simp [initState]

/-- C9: every `addIssue` emission whose severity is one of `error`,
`warning`, `info` preserves the invariant that the number of
accumulated findings equals the sum of the three severity counters. -/
theorem checker_stats_sum_invariant (st : CheckerState) (f : Finding)
    (hsev : f.severity = "error" ∨ f.severity = "warning" ∨ f.severity = "info")
    (hinv : st.issues.length = st.stats.errors + st.stats.warnings + st.stats.info) :
    (addIssue st f).issues.length
      = (addIssue st f).stats.errors + (addIssue st f).stats.warnings
        + (addIssue st f).stats.info := by
  rcases hsev with h | h | h <;>
    simp [addIssue, bumpStats, h, hinv] <;> omega

/-- Witness for C9 at a concrete state and finding. -/
theorem checker_stats_sum_invariant_witness :
    (addIssue initState ⟨"A.sol", 1, "layout.noTabs", "m", "error"⟩).issues.length
      = (addIssue initState ⟨"A.sol", 1, "layout.noTabs", "m", "error"⟩).stats.errors
        + (addIssue initState ⟨"A.sol", 1, "layout.noTabs", "m", "error"⟩).stats.warnings
        + (addIssue initState ⟨"A.sol", 1, "layout.noTabs", "m", "error"⟩).stats.info :=
  checker_stats_sum_invariant initState ⟨"A.sol", 1, "layout.noTabs", "m", "error"⟩
    (Or.inl rfl) rfl
